import Mathlib

/-!
# Book pagination engine of `frontend_react/src/App.jsx`

A shallow embedding of the pagination core of the React portfolio client:

* `chunkItems`   : the content chunker (`App.jsx` lines 14-20),
* `spreads`      : the spread builder (`App.jsx` lines 65-103),
* `turnPage`, `goToSpread`, `settle`, `loadData` : the navigation handlers
  (`App.jsx` lines 105-143, 199-215, 234-239) as transitions of an explicit
  component state.

Array indices and sizes that the source only ever uses as non-negative
integers are natural numbers; `spreadIndex`, jump targets and turn targets are
integers, because `spreadIndex - 1` and the argument of `goToSpread` may be
negative.
-/

namespace BookPagination

/-! ## Content chunker -/

/-- The call `items.slice(start, end)` of JavaScript for non-negative integer bounds:
the elements at positions `start`, ..., `min end items.length - 1`. -/
def slice {α : Type} (items : List α) (start stop : Nat) : List α :=
  (items.take stop).drop start

/-- The `for` loop of `chunkItems`, one iteration per unit of fuel:
`for (let i = 0; i < items.length; i += size) chunks.push(items.slice(i, i + size))`.
The arguments `i` and `chunks` are the loop variable and the accumulated array at the
loop head. `none` means that the fuel ran out before the loop condition failed. -/
def chunkLoop {α : Type} (items : List α) (size : Nat) :
    Nat → Nat → List (List α) → Option (List (List α))
  | 0, _, _ => none
  | fuel + 1, i, chunks =>
    if i < items.length then
      chunkLoop items size fuel (i + size) (chunks ++ [slice items i (i + size)])
    else
      some chunks

/-- The function `chunkItems(items, size)` of `App.jsx`. The loop is run with
`items.length + 1` units of fuel, which is enough for every `size ≥ 1`
(`chunkLoop_fuel_irrelevant`); for `size = 0` and a non-empty input the source loop never
ends and the result is `none` (`chunkLoop_size_zero`). -/
def chunkItems {α : Type} (items : List α) (size : Nat) : Option (List (List α)) :=
  chunkLoop items size (items.length + 1) 0 []

/-- Number of chunks the specification announces: the ceiling of `n / s`. -/
def ceilDiv (n s : Nat) : Nat := (n + s - 1) / s

/-! ## Cards -/

/-- A raw project record as delivered by `/projects`; a field the record lacks
(`undefined` or `null` in the source) is `none`. -/
structure Project where
  nom : Option String
  entreprise : Option String
  status : Option String
  description : Option String
  date_debut : Option String
  date_fin : Option String
  lien_github : Option String
deriving DecidableEq

/-- A raw experience record as delivered by `/experiences`. -/
structure Experience where
  nom : Option String
  company : Option String
  role : Option String
  description : Option String
  date_debut : Option String
  date_fin : Option String
deriving DecidableEq

/-- The uniform card shape built by the two `useMemo` blocks of `App.jsx` lines 44-63.
Experience cards have no `link` property. -/
structure Card where
  title : Option String
  subtitle : String
  body : String
  footer : String
  link : Option String
deriving DecidableEq

/-- The callback of `projects.map` (`App.jsx` lines 45-51); `a ?? b` is `Option.getD`. -/
def projectCard (project : Project) : Card :=
  { title := project.nom
    subtitle := project.entreprise.getD "Entreprise n/a" ++ " · " ++ project.status.getD "n/a"
    body := project.description.getD "Aucune description disponible."
    footer := project.date_debut.getD "n/a" ++ " → " ++ project.date_fin.getD "n/a"
    link := project.lien_github }

/-- The callback of `experiences.map` (`App.jsx` lines 56-61). -/
def experienceCard (exp : Experience) : Card :=
  { title := exp.nom
    subtitle := exp.company.getD "Entreprise n/a" ++ " · " ++ exp.role.getD "Role n/a"
    body := exp.description.getD "Aucune description disponible."
    footer := exp.date_debut.getD "n/a" ++ " → " ++ exp.date_fin.getD "n/a"
    link := none }

/-! ## Spread builder -/

/-- One element of the `spreads` array: `{ left, right }`. -/
structure Spread where
  left : String
  right : String
deriving DecidableEq

/-- The spread pushed for project chunk `index` (`App.jsx` lines 78-81). -/
def projectSpread (index : Nat) : Spread :=
  { left := "projects-left-" ++ toString index, right := "projects-right-" ++ toString index }

/-- The spread pushed for experience chunk `index` (`App.jsx` lines 85-88). -/
def experienceSpread (index : Nat) : Spread :=
  { left := "experiences-left-" ++ toString index
    right := "experiences-right-" ++ toString index }

/-- The loop `pairs.forEach((_, index) => base.push(mk index))`: the element itself is
ignored by the callback, `index` is the position of the element and `base` the array
built so far. -/
def pushEach {α : Type} (mk : Nat → Spread) : List α → Nat → List Spread → List Spread
  | [], _, base => base
  | _ :: rest, index, base => pushEach mk rest (index + 1) (base ++ [mk index])

/-- The `spreads` memo of `App.jsx` lines 65-103. -/
def spreads {α β : Type} (projectPairs : List α) (experiencePairs : List β) : List Spread :=
  let base : List Spread :=
    [ { left := "cover-left", right := "cover-right" },
      { left := "summary-left", right := "summary-right" } ]
  let base := pushEach projectSpread projectPairs 0 base
  let base := pushEach experienceSpread experiencePairs 0 base
  base ++
    [ { left := "graph-left", right := "graph-right" },
      { left := "contact-left", right := "contact-right" } ]

/-! ## Navigation state -/

/-- The two values `turnPage` is called with: the strings `next` and `prev`. -/
inductive Direction where
  | next
  | prev
deriving DecidableEq

/-- The part of the state of the `App` component that pagination and navigation read or
write, plus the two effects of `turnPage` outside React state:

* `timers` : the settle callbacks registered with `window.setTimeout(..., 240)` that have
  not fired yet, oldest first; a callback is determined by the `target` it closed over;
* `cueCalls` : the number of calls of `playFlipSound` so far (its body, gated by
  `soundEnabled` and wrapped in `try`/`catch`, touches no navigation state). -/
structure AppState where
  projects : List Project
  experiences : List Experience
  spreadIndex : Int
  turning : Option Direction
  timers : List Int
  cueCalls : Nat
deriving DecidableEq

/-- The state of a freshly mounted component showing the given collections:
`useState(0)` for `spreadIndex`, `useState(null)` for `turning`, no timer, no cue. The
component itself mounts with `projects = []` and `experiences = []`. -/
def AppState.initial (projects : List Project) (experiences : List Experience) : AppState :=
  { projects := projects, experiences := experiences, spreadIndex := 0, turning := none,
    timers := [], cueCalls := 0 }

/-- The `projectPairs` memo: `chunkItems(cards, 4)`. The page capacity 4 is at least 1, so
`chunkItems` returns (`chunkItems_four_isSome`) and the default is never used. -/
def AppState.projectPairs (s : AppState) : List (List Card) :=
  (chunkItems (s.projects.map projectCard) 4).getD []

/-- The `experiencePairs` memo: `chunkItems(cards, 4)`. -/
def AppState.experiencePairs (s : AppState) : List (List Card) :=
  (chunkItems (s.experiences.map experienceCard) 4).getD []

/-- The `spreads` memo of the current render. -/
def AppState.spreads (s : AppState) : List Spread :=
  BookPagination.spreads s.projectPairs s.experiencePairs

/-- The array read `xs[i]` for an integer `i`: `none` stands for `undefined`. -/
def index? {α : Type} (xs : List α) (i : Int) : Option α :=
  if i < 0 then none else xs[i.toNat]?

/-- The two page keys handed to `renderPage` at `App.jsx` lines 494-496:
`spreads[spreadIndex].left` and `spreads[spreadIndex].right`. `none` stands for the
`TypeError` raised when `spreads[spreadIndex]` is `undefined`. -/
def AppState.renderedKeys (s : AppState) : Option (String × String) :=
  (index? s.spreads s.spreadIndex).map (fun spread => (spread.left, spread.right))

/-- The handler `turnPage(direction)` of `App.jsx` lines 199-215, run on the state of the
current render. -/
def turnPage (direction : Direction) (s : AppState) : AppState :=
  if s.turning.isSome then s
  else
    let isNext : Bool := decide (direction = Direction.next)
    let target : Int := if isNext then s.spreadIndex + 1 else s.spreadIndex - 1
    if target < 0 ∨ target ≥ (s.spreads.length : Int) then s
    else
      { s with
        turning := some direction
        cueCalls := s.cueCalls + 1
        timers := s.timers ++ [target] }

/-- The firing of the oldest pending settle callback (`App.jsx` lines 211-214):
`setSpreadIndex(target); setTurning(null)`. Without a pending callback nothing fires. -/
def settle (s : AppState) : AppState :=
  match s.timers with
  | [] => s
  | target :: rest => { s with spreadIndex := target, turning := none, timers := rest }

/-- The handler `goToSpread(index)` of `App.jsx` lines 234-239. -/
def goToSpread (index : Int) (s : AppState) : AppState :=
  if index < 0 ∨ index ≥ (s.spreads.length : Int) then s
  else { s with spreadIndex := index }

/-- The state updates of `loadData` (`App.jsx` lines 105-143) on the modelled fields, at
the completion of the load. `fetched = some (projectsData, experiencesData)` is a load
whose `Promise.all` resolved: lines 123-128 run `setProjects`, `setExperiences` and
`setSpreadIndex(0)`. `fetched = none` is a load that threw before line 121: only `error`
and `loading` change, which are not modelled. -/
def loadData (fetched : Option (List Project × List Experience)) (s : AppState) : AppState :=
  match fetched with
  | none => s
  | some (projectsData, experiencesData) =>
    { s with projects := projectsData, experiences := experiencesData, spreadIndex := 0 }

/-- The navigation events of a session without reload. -/
inductive NavEvent where
  | turnPage (direction : Direction)
  | goToSpread (index : Int)
  | settle
deriving DecidableEq

/-- One navigation event applied to the state. -/
def NavEvent.apply (s : AppState) : NavEvent → AppState
  | NavEvent.turnPage direction => BookPagination.turnPage direction s
  | NavEvent.goToSpread index => BookPagination.goToSpread index s
  | NavEvent.settle => BookPagination.settle s

/-- The state after a sequence of navigation events, first event first. -/
def runNav (s : AppState) (events : List NavEvent) : AppState :=
  events.foldl NavEvent.apply s

/-- The events of a session: navigation events and completions of `loadData`. -/
inductive Event where
  | nav (event : NavEvent)
  | loadData (fetched : Option (List Project × List Experience))
deriving DecidableEq

/-- One event applied to the state. -/
def Event.apply (s : AppState) : Event → AppState
  | Event.nav event => NavEvent.apply s event
  | Event.loadData fetched => BookPagination.loadData fetched s

/-- The state after a sequence of events, first event first. -/
def run (s : AppState) (events : List Event) : AppState :=
  events.foldl Event.apply s

/-- A project record with a name only, for concrete scenarios. -/
def sampleProject : Project :=
  { nom := some "Team-Z", entreprise := none, status := none, description := none,
    date_debut := none, date_fin := none, lien_github := none }

/-- Scenario state: five projects are shown (two project chunks, six spreads), the reader
has jumped to the last spread (index 5) and has just started a turn backward, whose settle
callback (target 4) is pending. -/
def midTurnState : AppState :=
  runNav (AppState.initial (List.replicate 5 sampleProject) [])
    [NavEvent.goToSpread 5, NavEvent.turnPage Direction.prev]

/-- The arguments of the four `goToSpread` calls of the table of contents rendered for
`summary-left` (`App.jsx` lines 310-327), in the order of the buttons `Projets`,
`Expériences`, `Graph compétences`, `Contact`:
`2`, `2 + projectPairs.length`, `2 + projectPairs.length + experiencePairs.length` and
`2 + projectPairs.length + experiencePairs.length + 1`. -/
def tocTargets (s : AppState) : List Int :=
  [ 2,
    2 + (s.projectPairs.length : Int),
    2 + (s.projectPairs.length : Int) + (s.experiencePairs.length : Int),
    2 + (s.projectPairs.length : Int) + (s.experiencePairs.length : Int) + 1 ]

/-- The value of the local `target` of `turnPage`:
`isNext ? spreadIndex + 1 : spreadIndex - 1`; used to state the theorems. -/
def turnTarget (direction : Direction) (s : AppState) : Int :=
  match direction with
  | Direction.next => s.spreadIndex + 1
  | Direction.prev => s.spreadIndex - 1

/-! # Theorems -/

/-! ### Loop lemmas -/

theorem slice_append_drop {α : Type} (items : List α) (i size : Nat) :
    slice items i (i + size) ++ items.drop (i + size) = items.drop i := by
  unfold slice
  rw [List.drop_take]
  have h : i + size - i = size := by omega
  rw [h, ← List.drop_drop, List.take_append_drop]

theorem slice_length {α : Type} (items : List α) (i size : Nat) :
    (slice items i (i + size)).length = min size (items.length - i) := by
  unfold slice
  rw [List.length_drop, List.length_take]
  omega

theorem ceilDiv_step (m s : Nat) (hs : 1 ≤ s) (hm : 0 < m) :
    ceilDiv m s = ceilDiv (m - s) s + 1 := by
  unfold ceilDiv
  by_cases h : s ≤ m
  · have e : m + s - 1 = (m - s + s - 1) + s := by omega
    rw [e, Nat.add_div_right _ (by omega)]
  · have e1 : m - s = 0 := by omega
    rw [e1]
    have h1 : (0 + s - 1) / s = 0 := Nat.div_eq_of_lt (by omega)
    have h2 : (m + s - 1) / s = 1 := by
      apply Nat.div_eq_of_lt_le <;> omega
    rw [h1, h2]

theorem ceilDiv_zero (s : Nat) (hs : 1 ≤ s) : ceilDiv 0 s = 0 := by
  unfold ceilDiv
  exact Nat.div_eq_of_lt (by omega)

/-- Main loop invariant: started at the loop head with index `i` and accumulator `chunks`,
with enough fuel, the loop returns `chunks` followed by chunks whose concatenation is the
rest of the input from position `i`, in number `ceilDiv (items.length - i) size`. -/
theorem chunkLoop_spec {α : Type} (items : List α) (size : Nat) (hs : 1 ≤ size) :
    ∀ (fuel i : Nat) (chunks : List (List α)), items.length - i < fuel →
      ∃ rest : List (List α),
        chunkLoop items size fuel i chunks = some (chunks ++ rest) ∧
        rest.flatten = items.drop i ∧
        rest.length = ceilDiv (items.length - i) size ∧
        rest.map List.length =
          (List.range (ceilDiv (items.length - i) size)).map
            (fun j => min size (items.length - i - j * size)) := by
  intro fuel
  induction fuel with
  | zero =>
    intro i chunks h
    refine ⟨[], ?_, ?_, ?_, ?_⟩
    · exfalso; omega
    · have : items.length ≤ i := by omega
      simp [List.drop_eq_nil_of_le this]
    · have : items.length - i = 0 := by omega
      simp [this, ceilDiv_zero size hs]
    · have : items.length - i = 0 := by omega
      simp [this, ceilDiv_zero size hs]
  | succ fuel ih =>
    intro i chunks h
    by_cases hi : i < items.length
    · obtain ⟨rest, hrun, hjoin, hlen, hmap⟩ :=
        ih (i + size) (chunks ++ [slice items i (i + size)]) (by omega)
      have hsub : items.length - (i + size) = items.length - i - size := by omega
      have hstep := ceilDiv_step (items.length - i) size hs (by omega)
      refine ⟨slice items i (i + size) :: rest, ?_, ?_, ?_, ?_⟩
      · simp only [chunkLoop, hi, if_true]
        rw [hrun]
        simp
      · rw [List.flatten_cons, hjoin, slice_append_drop]
      · rw [List.length_cons, hlen, hsub, hstep]
      · rw [hstep, List.range_succ_eq_map, List.map_cons, List.map_cons, hmap, slice_length,
          List.map_map, hsub]
        congr 1
        · simp
        · apply List.map_congr_left
          intro j _
          simp only [Function.comp, Nat.succ_eq_add_one]
          have : (j + 1) * size = j * size + size := by ring
          rw [this]
          congr 1
          omega
    · refine ⟨[], ?_, ?_, ?_, ?_⟩
      · simp [chunkLoop, hi]
      · have : items.length ≤ i := by omega
        simp [List.drop_eq_nil_of_le this]
      · have : items.length - i = 0 := by omega
        simp [this, ceilDiv_zero size hs]
      · have : items.length - i = 0 := by omega
        simp [this, ceilDiv_zero size hs]

/-- For `size ≥ 1` the result of the loop does not depend on the fuel, once there is
enough of it. -/
theorem chunkLoop_fuel_mono {α : Type} (items : List α) (size : Nat) (hs : 1 ≤ size) :
    ∀ (fuel fuel2 i : Nat) (chunks : List (List α)),
      items.length - i < fuel → items.length - i < fuel2 →
      chunkLoop items size fuel i chunks = chunkLoop items size fuel2 i chunks := by
  intro fuel
  induction fuel with
  | zero => intro fuel2 i chunks h; omega
  | succ fuel ih =>
    intro fuel2 i chunks h h2
    cases fuel2 with
    | zero => omega
    | succ fuel2 =>
      by_cases hi : i < items.length
      · simp only [chunkLoop, hi, if_true]
        exact ih fuel2 (i + size) _ (by omega) (by omega)
      · simp [chunkLoop, hi]

/-- With `size ≥ 1`, `chunkItems` is the value the loop returns for every sufficient
amount of fuel: it is the value the source function returns. -/
theorem chunkLoop_fuel_irrelevant {α : Type} (items : List α) (size : Nat) (hs : 1 ≤ size)
    (fuel : Nat) (hf : items.length + 1 ≤ fuel) :
    chunkLoop items size fuel 0 [] = chunkItems items size :=
  chunkLoop_fuel_mono items size hs fuel (items.length + 1) 0 [] (by omega) (by omega)

/-- With `size = 0` and a non-empty input the loop never leaves its body: no amount of
fuel produces a result. -/
theorem chunkLoop_size_zero {α : Type} (items : List α) (hne : items ≠ []) :
    ∀ (fuel : Nat) (chunks : List (List α)), chunkLoop items 0 fuel 0 chunks = none := by
  intro fuel
  induction fuel with
  | zero => intro chunks; rfl
  | succ fuel ih =>
    intro chunks
    have : 0 < items.length := List.length_pos.mpr hne
    simp only [chunkLoop, this, if_true]
    exact ih _

theorem ceilDiv_eq_ceil (n s : Nat) (hs : 1 ≤ s) :
    ceilDiv n s = ⌈(n : ℚ) / (s : ℚ)⌉₊ := by
  have hsq : (0 : ℚ) < (s : ℚ) := by exact_mod_cast hs
  symm
  by_cases hn : n = 0
  · subst hn
    simp [ceilDiv_zero s hs]
  · have hlow : ceilDiv n s * s ≤ n + s - 1 := Nat.div_mul_le_self _ _
    have hupp : n + s - 1 < (ceilDiv n s + 1) * s := by
      have := Nat.lt_div_mul_add (a := n + s - 1) (b := s) (by omega)
      unfold ceilDiv
      rw [Nat.add_mul, Nat.one_mul]
      exact this
    have hk : ceilDiv n s ≠ 0 := by
      intro h0
      rw [h0] at hupp
      omega
    rw [Nat.ceil_eq_iff hk]
    constructor
    · rw [lt_div_iff₀ hsq]
      have h1 : (ceilDiv n s - 1) * s < n := by
        have : (ceilDiv n s - 1) * s = ceilDiv n s * s - s := by
          rw [Nat.sub_mul, Nat.one_mul]
        omega
      exact_mod_cast h1
    · rw [div_le_iff₀ hsq]
      have h2 : n ≤ ceilDiv n s * s := by
        rw [Nat.add_mul, Nat.one_mul] at hupp
        omega
      exact_mod_cast h2

/-! ## Claims on the chunker -/

/-- C1: for every list `items` and every size `s ≥ 1`, `chunkItems(items, s)` returns (for
every sufficient amount of fuel the loop gives the same chunks), and the concatenation of
the returned chunks, in order, is exactly `items`. -/
theorem chunkItems_flatten {α : Type} (items : List α) (s : Nat) (hs : 1 ≤ s) :
    ∃ chunks : List (List α),
      chunkItems items s = some chunks ∧
      (∀ fuel, items.length + 1 ≤ fuel → chunkLoop items s fuel 0 [] = some chunks) ∧
      chunks.flatten = items := by
  obtain ⟨rest, hrun, hflat, _, _⟩ :=
    chunkLoop_spec items s hs (items.length + 1) 0 [] (by omega)
  have hrun2 : chunkItems items s = some rest := by simpa [chunkItems] using hrun
  refine ⟨rest, hrun2, ?_, ?_⟩
  · intro fuel hf
    rw [chunkLoop_fuel_irrelevant items s hs fuel hf, hrun2]
  · simpa using hflat

/-- Witness of C1: three items at size 2 give the chunks `[10, 20]` and `[30]`. -/
theorem chunkItems_flatten_witness :
    1 ≤ 2 ∧ chunkItems [10, 20, 30] 2 = some [[10, 20], [30]] ∧
      ∃ chunks : List (List Nat),
        chunkItems [10, 20, 30] 2 = some chunks ∧
        (∀ fuel, [10, 20, 30].length + 1 ≤ fuel →
          chunkLoop [10, 20, 30] 2 fuel 0 [] = some chunks) ∧
        chunks.flatten = [10, 20, 30] :=
  ⟨by decide, by decide, chunkItems_flatten [10, 20, 30] 2 (by decide)⟩

/-- C2: for every list of length `n` and every size `s ≥ 1`, `chunkItems` returns exactly
`ceil (n / s)` chunks (as a rational ceiling, and as `(n + s - 1) / s`); the empty list
gives the empty chunk sequence, and 9 items at size 4 give 3 chunks of lengths 4, 4, 1. -/
theorem chunkItems_count {α : Type} (items : List α) (s : Nat) (hs : 1 ≤ s) :
    ∃ chunks : List (List α),
      chunkItems items s = some chunks ∧
      chunks.length = ⌈(items.length : ℚ) / (s : ℚ)⌉₊ ∧
      chunks.length = ceilDiv items.length s ∧
      (items = [] → chunks = []) ∧
      (items.length = 9 → s = 4 → chunks.length = 3 ∧ chunks.map List.length = [4, 4, 1]) := by
  obtain ⟨rest, hrun, _, hlen, hmap⟩ :=
    chunkLoop_spec items s hs (items.length + 1) 0 [] (by omega)
  have hrun2 : chunkItems items s = some rest := by simpa [chunkItems] using hrun
  simp only [Nat.sub_zero] at hlen hmap
  refine ⟨rest, hrun2, ?_, hlen, ?_, ?_⟩
  · rw [hlen, ceilDiv_eq_ceil _ _ hs]
  · intro he
    subst he
    have h0 : rest.length = 0 := by rw [hlen]; exact ceilDiv_zero s hs
    exact List.length_eq_zero.mp h0
  · intro h9 h4
    subst h4
    rw [h9] at hlen hmap
    refine ⟨by rw [hlen]; decide, ?_⟩
    rw [hmap]
    decide

/-- Witness of C2: nine items at size 4. -/
theorem chunkItems_count_witness :
    1 ≤ 4 ∧
      chunkItems [0, 1, 2, 3, 4, 5, 6, 7, 8] 4 = some [[0, 1, 2, 3], [4, 5, 6, 7], [8]] ∧
      chunkItems ([] : List Nat) 4 = some [] ∧
      ∃ chunks : List (List Nat),
        chunkItems [0, 1, 2, 3, 4, 5, 6, 7, 8] 4 = some chunks ∧
        chunks.length = ⌈(([0, 1, 2, 3, 4, 5, 6, 7, 8] : List Nat).length : ℚ) / ((4 : Nat) : ℚ)⌉₊ ∧
        chunks.length = ceilDiv ([0, 1, 2, 3, 4, 5, 6, 7, 8] : List Nat).length 4 ∧
        (([0, 1, 2, 3, 4, 5, 6, 7, 8] : List Nat) = [] → chunks = []) ∧
        (([0, 1, 2, 3, 4, 5, 6, 7, 8] : List Nat).length = 9 → 4 = 4 →
          chunks.length = 3 ∧ chunks.map List.length = [4, 4, 1]) :=
  ⟨by decide, by decide, by decide,
    chunkItems_count [0, 1, 2, 3, 4, 5, 6, 7, 8] 4 (by decide)⟩

/-! ## Claims on the spread builder -/

/-- The `forEach` loop appends one spread per element, numbered from the start index. -/
theorem pushEach_eq {α : Type} (mk : Nat → Spread) :
    ∀ (pairs : List α) (index : Nat) (base : List Spread),
      pushEach mk pairs index base =
        base ++ (List.range pairs.length).map (fun j => mk (index + j)) := by
  intro pairs
  induction pairs with
  | nil => intro index base; simp [pushEach]
  | cons x rest ih =>
    intro index base
    rw [pushEach, ih, List.length_cons, List.range_succ_eq_map, List.map_cons,
      List.map_map, List.append_assoc]
    congr 1
    simp only [List.singleton_append, Nat.add_zero, List.cons.injEq, true_and]
    apply List.map_congr_left
    intro j _
    simp only [Function.comp, Nat.succ_eq_add_one]
    congr 1
    omega

/-- Closed form of the spread sequence. -/
theorem spreads_eq {α β : Type} (projectPairs : List α) (experiencePairs : List β) :
    spreads projectPairs experiencePairs =
      [ ({ left := "cover-left", right := "cover-right" } : Spread),
        { left := "summary-left", right := "summary-right" } ] ++
      ((List.range projectPairs.length).map projectSpread ++
      ((List.range experiencePairs.length).map experienceSpread ++
      [ { left := "graph-left", right := "graph-right" },
        { left := "contact-left", right := "contact-right" } ])) := by
  simp [spreads, pushEach_eq]

theorem spreads_length {α β : Type} (projectPairs : List α) (experiencePairs : List β) :
    (spreads projectPairs experiencePairs).length =
      projectPairs.length + experiencePairs.length + 4 := by
  rw [spreads_eq]
  simp
  omega

/-- C3: for chunk sequences of lengths `p` and `e` (zero included) the built spread
sequence has length `p + e + 4` and is, in order: cover, summary, the project spreads
numbered `0..p-1` at indices `2+i`, the experience spreads numbered `0..e-1` at indices
`2+p+j`, graph at index `2+p+e` and contact at index `3+p+e`; chunk sequences of the same
lengths, whatever their contents, give the same spread sequence. -/
theorem spreads_layout {α β : Type} (projectChunks : List α) (experienceChunks : List β) :
    (spreads projectChunks experienceChunks).length =
        projectChunks.length + experienceChunks.length + 4 ∧
      (spreads projectChunks experienceChunks)[0]? =
        some { left := "cover-left", right := "cover-right" } ∧
      (spreads projectChunks experienceChunks)[1]? =
        some { left := "summary-left", right := "summary-right" } ∧
      (∀ i, i < projectChunks.length →
        (spreads projectChunks experienceChunks)[2 + i]? =
          some { left := "projects-left-" ++ toString i,
                 right := "projects-right-" ++ toString i }) ∧
      (∀ j, j < experienceChunks.length →
        (spreads projectChunks experienceChunks)[2 + projectChunks.length + j]? =
          some { left := "experiences-left-" ++ toString j,
                 right := "experiences-right-" ++ toString j }) ∧
      (spreads projectChunks experienceChunks)[2 + projectChunks.length +
          experienceChunks.length]? =
        some { left := "graph-left", right := "graph-right" } ∧
      (spreads projectChunks experienceChunks)[3 + projectChunks.length +
          experienceChunks.length]? =
        some { left := "contact-left", right := "contact-right" } ∧
      (∀ (γ δ : Type) (otherProjects : List γ) (otherExperiences : List δ),
        otherProjects.length = projectChunks.length →
        otherExperiences.length = experienceChunks.length →
        spreads otherProjects otherExperiences = spreads projectChunks experienceChunks) := by
  refine ⟨spreads_length _ _, ?_, ?_, ?_, ?_, ?_, ?_, ?_⟩
  · rw [spreads_eq]; simp
  · rw [spreads_eq]; simp
  · intro i hi
    rw [spreads_eq, List.getElem?_append_right (by simp)]
    simp only [List.length_cons, List.length_nil, Nat.zero_add, Nat.reduceAdd,
      Nat.add_sub_cancel_left]
    rw [List.getElem?_append_left (by simpa using hi)]
    simp [projectSpread, hi]
  · intro j hj
    rw [spreads_eq, List.getElem?_append_right (by simp; omega)]
    simp only [List.length_cons, List.length_nil, Nat.zero_add, Nat.reduceAdd]
    rw [List.getElem?_append_right (by simp; omega)]
    rw [List.getElem?_append_left (by simp; omega)]
    have : 2 + projectChunks.length + j - 2 -
        (List.map projectSpread (List.range projectChunks.length)).length = j := by
      simp; omega
    rw [this]
    simp [experienceSpread, hj]
  · rw [spreads_eq, List.getElem?_append_right (by simp; omega)]
    simp only [List.length_cons, List.length_nil, Nat.zero_add, Nat.reduceAdd]
    rw [List.getElem?_append_right (by simp; omega)]
    rw [List.getElem?_append_right (by simp; omega)]
    have : 2 + projectChunks.length + experienceChunks.length - 2 -
        (List.map projectSpread (List.range projectChunks.length)).length -
        (List.map experienceSpread (List.range experienceChunks.length)).length = 0 := by
      simp; omega
    rw [this]
    rfl
  · rw [spreads_eq, List.getElem?_append_right (by simp; omega)]
    simp only [List.length_cons, List.length_nil, Nat.zero_add, Nat.reduceAdd]
    rw [List.getElem?_append_right (by simp; omega)]
    rw [List.getElem?_append_right (by simp; omega)]
    have : 3 + projectChunks.length + experienceChunks.length - 2 -
        (List.map projectSpread (List.range projectChunks.length)).length -
        (List.map experienceSpread (List.range experienceChunks.length)).length = 1 := by
      simp; omega
    rw [this]
    rfl
  · intro γ δ otherProjects otherExperiences hp he
    rw [spreads_eq, spreads_eq, hp, he]

/-- Witness of C3: three project chunks and two experience chunks give nine spreads. -/
theorem spreads_layout_witness :
    spreads [[1, 2, 3, 4], [5, 6, 7, 8], [9]] [[1, 2, 3, 4], [5]] =
      [ { left := "cover-left", right := "cover-right" },
        { left := "summary-left", right := "summary-right" },
        { left := "projects-left-0", right := "projects-right-0" },
        { left := "projects-left-1", right := "projects-right-1" },
        { left := "projects-left-2", right := "projects-right-2" },
        { left := "experiences-left-0", right := "experiences-right-0" },
        { left := "experiences-left-1", right := "experiences-right-1" },
        { left := "graph-left", right := "graph-right" },
        { left := "contact-left", right := "contact-right" } ] ∧
      (spreads ([] : List (List Nat)) ([] : List (List Nat))).length = 4 ∧
      (spreads [[1, 2, 3, 4], [5, 6, 7, 8], [9]] [[1, 2, 3, 4], [5]])[2 + 3 + 1]? =
        some { left := "experiences-left-" ++ toString 1,
               right := "experiences-right-" ++ toString 1 } :=
  ⟨by decide, by decide,
    (spreads_layout [[1, 2, 3, 4], [5, 6, 7, 8], [9]] [[1, 2, 3, 4], [5]]).2.2.2.2.1 1
      (by decide)⟩

/-! ## Claims on navigation -/

/-- The page capacity 4 is positive, so the chunking of the cards always returns. -/
theorem chunkItems_four_isSome {α : Type} (items : List α) :
    (chunkItems items 4).isSome = true := by
  obtain ⟨chunks, h, _⟩ :=
    chunkLoop_spec items 4 (by decide) (items.length + 1) 0 [] (by omega)
  unfold chunkItems
  rw [h]
  rfl

/-- The spread sequence of every state has the two opening and the two closing spreads. -/
theorem state_spreads_length (s : AppState) :
    s.spreads.length = s.projectPairs.length + s.experiencePairs.length + 4 := by
  unfold AppState.spreads
  exact BookPagination.spreads_length _ _

theorem index?_isSome {α : Type} (xs : List α) (i : Int) (h0 : 0 ≤ i)
    (h1 : i ≤ (xs.length : Int) - 1) : (index? xs i).isSome = true := by
  unfold index?
  have hn : ¬ i < 0 := by omega
  have hlt : i.toNat < xs.length := by omega
  simp [hn, List.getElem?_eq_getElem hlt]

/-- The handler `turnPage` in terms of `turnTarget`. -/
theorem turnPage_eq (direction : Direction) (s : AppState) :
    turnPage direction s =
      if s.turning.isSome then s
      else if turnTarget direction s < 0 ∨ turnTarget direction s ≥ (s.spreads.length : Int)
      then s
      else
        { s with
          turning := some direction
          cueCalls := s.cueCalls + 1
          timers := s.timers ++ [turnTarget direction s] } := by
  cases direction <;> rfl

/-- In every state reachable from a freshly mounted component, with reloads allowed, at most
one settle callback is pending, and one is pending exactly when `turning` is not `null`. -/
theorem run_timers (projects : List Project) (experiences : List Experience)
    (events : List Event) :
    ((run (AppState.initial projects experiences) events).turning = none ↔
        (run (AppState.initial projects experiences) events).timers = []) ∧
      (run (AppState.initial projects experiences) events).timers.length ≤ 1 := by
  have key : ∀ (evs : List Event) (s : AppState),
      ((s.turning = none ↔ s.timers = []) ∧ s.timers.length ≤ 1) →
      (((run s evs).turning = none ↔ (run s evs).timers = []) ∧
        (run s evs).timers.length ≤ 1) := by
    intro evs
    induction evs with
    | nil => intro s h; exact h
    | cons ev rest ih =>
      intro s h
      have hstep : ((Event.apply s ev).turning = none ↔ (Event.apply s ev).timers = []) ∧
          (Event.apply s ev).timers.length ≤ 1 := by
        obtain ⟨hiff, hlen⟩ := h
        cases ev with
        | nav event =>
          cases event with
          | turnPage direction =>
            simp only [Event.apply, NavEvent.apply, turnPage_eq]
            split
            · exact ⟨hiff, hlen⟩
            · rename_i ht
              have hnil : s.timers = [] := hiff.mp (by simpa using ht)
              split
              · exact ⟨hiff, hlen⟩
              · simp [hnil]
          | goToSpread index =>
            simp only [Event.apply, NavEvent.apply, goToSpread]
            split
            · exact ⟨hiff, hlen⟩
            · exact ⟨hiff, hlen⟩
          | settle =>
            simp only [Event.apply, NavEvent.apply, settle]
            cases htm : s.timers with
            | nil => simpa [htm] using hiff
            | cons t more =>
              rw [htm] at hlen
              have : more = [] := by
                cases more with
                | nil => rfl
                | cons a b => simp at hlen
              simp [this]
        | loadData fetched =>
          cases fetched with
          | none => exact ⟨hiff, hlen⟩
          | some data =>
            obtain ⟨pd, ed⟩ := data
            exact ⟨hiff, hlen⟩
      exact ih _ hstep
  exact key events _ (by simp [AppState.initial])

/-- C4: `turnPage(direction)` returns the state it was given (same `spreadIndex` and
`turning`, no settle callback registered, no call of the cue) when a transition is in
flight, when the direction is `next` at the last index (or beyond), and when the direction
is `prev` at index 0 (or below): the request is rejected, not clamped. -/
theorem turnPage_rejected (direction : Direction) (s : AppState)
    (h : s.turning ≠ none ∨
      (direction = Direction.next ∧ (s.spreads.length : Int) - 1 ≤ s.spreadIndex) ∨
      (direction = Direction.prev ∧ s.spreadIndex ≤ 0)) :
    turnPage direction s = s ∧
      (turnPage direction s).spreadIndex = s.spreadIndex ∧
      (turnPage direction s).turning = s.turning ∧
      (turnPage direction s).timers = s.timers ∧
      (turnPage direction s).cueCalls = s.cueCalls := by
  have main : turnPage direction s = s := by
    rw [turnPage_eq]
    rcases h with h | h | h
    · have : s.turning.isSome = true := by
        cases ht : s.turning with
        | none => exact absurd ht h
        | some d => rfl
      simp [this]
    · obtain ⟨hd, hi⟩ := h
      subst hd
      have : turnTarget Direction.next s < 0 ∨
          turnTarget Direction.next s ≥ (s.spreads.length : Int) := by
        right
        simp only [turnTarget]
        omega
      simp [this]
    · obtain ⟨hd, hi⟩ := h
      subst hd
      have : turnTarget Direction.prev s < 0 ∨
          turnTarget Direction.prev s ≥ (s.spreads.length : Int) := by
        left
        simp only [turnTarget]
        omega
      simp [this]
  rw [main]
  exact ⟨rfl, rfl, rfl, rfl, rfl⟩

/-- Witness of C4: with the four structural spreads, `prev` at index 0 is rejected. -/
theorem turnPage_rejected_witness :
    (AppState.initial [] []).spreads.length = 4 ∧
      (AppState.initial [] []).spreadIndex = 0 ∧
      turnPage Direction.prev (AppState.initial [] []) = AppState.initial [] [] ∧
      (turnPage Direction.prev (AppState.initial [] [])).spreadIndex =
        (AppState.initial [] []).spreadIndex :=
  ⟨by decide, by decide,
    (turnPage_rejected Direction.prev (AppState.initial [] [])
      (Or.inr (Or.inr ⟨rfl, by decide⟩))).1,
    (turnPage_rejected Direction.prev (AppState.initial [] [])
      (Or.inr (Or.inr ⟨rfl, by decide⟩))).2.1⟩

/-- C5: in a steady state (`turning = null`, no settle callback pending) at index `i`, for
a direction whose target `t` (`i + 1` for `next`, `i - 1` for `prev`) lies in
`[0, len - 1]`, `turnPage(direction)` sets `turning` to the direction, keeps `spreadIndex`
at `i`, calls the cue exactly once and registers one settle callback; when that callback
fires next, `spreadIndex` becomes `t` and `turning` becomes `null` again. -/
theorem turnPage_accepted (direction : Direction) (s : AppState)
    (hsteady : s.turning = none) (hidle : s.timers = [])
    (hlo : 0 ≤ turnTarget direction s)
    (hhi : turnTarget direction s ≤ (s.spreads.length : Int) - 1) :
    (turnPage direction s).turning = some direction ∧
      (turnPage direction s).spreadIndex = s.spreadIndex ∧
      (turnPage direction s).cueCalls = s.cueCalls + 1 ∧
      (turnPage direction s).timers = [turnTarget direction s] ∧
      (settle (turnPage direction s)).spreadIndex = turnTarget direction s ∧
      (settle (turnPage direction s)).turning = none ∧
      (settle (turnPage direction s)).timers = [] ∧
      (settle (turnPage direction s)).cueCalls = s.cueCalls + 1 := by
  have hr : ¬ (turnTarget direction s < 0 ∨
      turnTarget direction s ≥ (s.spreads.length : Int)) := by omega
  have main : turnPage direction s =
      { s with
        turning := some direction
        cueCalls := s.cueCalls + 1
        timers := [turnTarget direction s] } := by
    rw [turnPage_eq]
    simp [hsteady, hr, hidle]
  rw [main]
  simp [settle]

/-- Witness of C5: with the four structural spreads, turning forward from index 0 ends at
index 1. -/
theorem turnPage_accepted_witness :
    (AppState.initial [] []).spreads.length = 4 ∧
      (AppState.initial [] []).spreadIndex = 0 ∧
      turnTarget Direction.next (AppState.initial [] []) = 1 ∧
      (settle (turnPage Direction.next (AppState.initial [] []))).spreadIndex = 1 ∧
      (settle (turnPage Direction.next (AppState.initial [] []))).turning = none :=
  ⟨by decide, by decide, by decide,
    (turnPage_accepted Direction.next (AppState.initial [] []) rfl rfl (by decide)
      (by decide)).2.2.2.2.1,
    (turnPage_accepted Direction.next (AppState.initial [] []) rfl rfl (by decide)
      (by decide)).2.2.2.2.2.1⟩

/-- C6: in a steady state, `goToSpread(k)` with `0 ≤ k ≤ len - 1` sets `spreadIndex` to `k`
at once and changes nothing else (`turning` stays `null`, no settle callback is registered,
the cue is not called); with `k < 0` or `k ≥ len` it leaves the whole state unchanged. -/
theorem goToSpread_steady (k : Int) (s : AppState) (hsteady : s.turning = none) :
    (0 ≤ k ∧ k ≤ (s.spreads.length : Int) - 1 →
        goToSpread k s = { s with spreadIndex := k } ∧
        (goToSpread k s).spreadIndex = k ∧
        (goToSpread k s).turning = none ∧
        (goToSpread k s).timers = s.timers ∧
        (goToSpread k s).cueCalls = s.cueCalls) ∧
      (k < 0 ∨ k ≥ (s.spreads.length : Int) → goToSpread k s = s) := by
  constructor
  · intro hk
    have hr : ¬ (k < 0 ∨ k ≥ (s.spreads.length : Int)) := by omega
    have main : goToSpread k s = { s with spreadIndex := k } := by
      simp [goToSpread, hr]
    rw [main]
    exact ⟨rfl, rfl, hsteady, rfl, rfl⟩
  · intro hk
    simp [goToSpread, hk]

/-- Witness of C6: with the four structural spreads, a jump to index 2 is made at once and
a jump to index 4 is ignored. -/
theorem goToSpread_steady_witness :
    (AppState.initial [] []).turning = none ∧
      (goToSpread 2 (AppState.initial [] [])).spreadIndex = 2 ∧
      goToSpread 4 (AppState.initial [] []) = AppState.initial [] [] :=
  ⟨rfl,
    ((goToSpread_steady 2 (AppState.initial [] []) rfl).1 ⟨by decide, by decide⟩).2.1,
    (goToSpread_steady 4 (AppState.initial [] []) rfl).2 (Or.inr (by decide))⟩

/-- The guard of `goToSpread` reads the index bounds only: an in-range jump is made whatever
`turning` is. -/
theorem goToSpread_ignores_turning (k : Int) (s : AppState)
    (hk : 0 ≤ k ∧ k ≤ (s.spreads.length : Int) - 1) :
    goToSpread k s = { s with spreadIndex := k } := by
  have hr : ¬ (k < 0 ∨ k ≥ (s.spreads.length : Int)) := by omega
  simp [goToSpread, hr]

/-- C7 (the code at the failing input): with the four structural spreads, on the summary
spread (index 1) a turn forward is started, so `turning = next` and the settle callback
for target 2 is pending; `goToSpread(3)` issued now is accepted: `spreadIndex` becomes 3
while `turning` is still `next`, and the settle callback then overwrites it with 2. -/
theorem goToSpread_in_flight_accepted :
    (turnPage Direction.next (goToSpread 1 (AppState.initial [] []))).turning =
        some Direction.next ∧
      (turnPage Direction.next (goToSpread 1 (AppState.initial [] []))).spreadIndex = 1 ∧
      (turnPage Direction.next (goToSpread 1 (AppState.initial [] []))).timers = [2] ∧
      (goToSpread 3
        (turnPage Direction.next (goToSpread 1 (AppState.initial [] [])))).spreadIndex = 3 ∧
      (goToSpread 3
        (turnPage Direction.next (goToSpread 1 (AppState.initial [] [])))).turning =
        some Direction.next ∧
      goToSpread 3 (turnPage Direction.next (goToSpread 1 (AppState.initial [] []))) ≠
        turnPage Direction.next (goToSpread 1 (AppState.initial [] [])) ∧
      (settle (goToSpread 3
        (turnPage Direction.next (goToSpread 1 (AppState.initial [] []))))).spreadIndex = 2 := by
  decide

/-- The spread sequence is a function of the two collections only. -/
theorem AppState.spreads_congr (s t : AppState) (hp : t.projects = s.projects)
    (he : t.experiences = s.experiences) : t.spreads = s.spreads := by
  unfold AppState.spreads AppState.projectPairs AppState.experiencePairs
  rw [hp, he]

/-- Invariant of navigation over a fixed spread sequence `book`: the index and the target
of every pending settle callback are valid positions of `book`. -/
theorem runNav_invariant (book : List Spread) :
    ∀ (events : List NavEvent) (s : AppState),
      (s.spreads = book ∧ 0 ≤ s.spreadIndex ∧ s.spreadIndex ≤ (book.length : Int) - 1 ∧
        ∀ t ∈ s.timers, 0 ≤ t ∧ t ≤ (book.length : Int) - 1) →
      ((runNav s events).spreads = book ∧ 0 ≤ (runNav s events).spreadIndex ∧
        (runNav s events).spreadIndex ≤ (book.length : Int) - 1 ∧
        ∀ t ∈ (runNav s events).timers, 0 ≤ t ∧ t ≤ (book.length : Int) - 1) := by
  intro events
  induction events with
  | nil => intro s h; exact h
  | cons ev rest ih =>
    intro s h
    apply ih
    obtain ⟨hb, h0, h1, ht⟩ := h
    cases ev with
    | turnPage direction =>
      simp only [NavEvent.apply, turnPage_eq]
      split
      · exact ⟨hb, h0, h1, ht⟩
      · split
        · exact ⟨hb, h0, h1, ht⟩
        · rename_i hr
          refine ⟨?_, h0, h1, ?_⟩
          · rw [← hb]
            exact AppState.spreads_congr s _ rfl rfl
          · intro t hmem
            simp only [List.mem_append, List.mem_singleton] at hmem
            rcases hmem with hmem | hmem
            · exact ht t hmem
            · rw [hb] at hr
              subst hmem
              omega
    | goToSpread index =>
      simp only [NavEvent.apply, goToSpread]
      split
      · exact ⟨hb, h0, h1, ht⟩
      · rename_i hr
        refine ⟨?_, ?_, ?_, ht⟩
        · rw [← hb]
          exact AppState.spreads_congr s _ rfl rfl
        · rw [hb] at hr
          show 0 ≤ index
          omega
        · rw [hb] at hr
          show index ≤ (book.length : Int) - 1
          omega
    | settle =>
      simp only [NavEvent.apply, settle]
      cases htm : s.timers with
      | nil => exact ⟨hb, h0, h1, ht⟩
      | cons target more =>
        rw [htm] at ht
        have hin := ht target (List.mem_cons_self _ _)
        refine ⟨?_, hin.1, hin.2, ?_⟩
        · rw [← hb]
          exact AppState.spreads_congr s _ rfl rfl
        · intro t hmem
          exact ht t (List.mem_cons_of_mem _ hmem)

/-- C8: over a fixed spread sequence (no reload), every state reached from the initial
state (`spreadIndex = 0`, `turning = null`) by any sequence of `turnPage` calls,
`goToSpread` calls and settle callbacks shows the same spread sequence and has
`0 ≤ spreadIndex ≤ len - 1`, so the read `spreads[spreadIndex]` of the render is defined. -/
theorem spreadIndex_in_range (projects : List Project) (experiences : List Experience)
    (events : List NavEvent) :
    (runNav (AppState.initial projects experiences) events).spreads =
        (AppState.initial projects experiences).spreads ∧
      0 ≤ (runNav (AppState.initial projects experiences) events).spreadIndex ∧
      (runNav (AppState.initial projects experiences) events).spreadIndex ≤
        ((runNav (AppState.initial projects experiences) events).spreads.length : Int) - 1 ∧
      (index? (runNav (AppState.initial projects experiences) events).spreads
        (runNav (AppState.initial projects experiences) events).spreadIndex).isSome = true ∧
      (runNav (AppState.initial projects experiences) events).renderedKeys.isSome = true := by
  have hlen := state_spreads_length (AppState.initial projects experiences)
  obtain ⟨hb, h0, h1, _⟩ :=
    runNav_invariant (AppState.initial projects experiences).spreads events
      (AppState.initial projects experiences)
      ⟨rfl, by simp [AppState.initial],
        by
          have : (AppState.initial projects experiences).spreadIndex = 0 := rfl
          rw [this]
          omega,
        by simp [AppState.initial]⟩
  have hsome := index?_isSome (runNav (AppState.initial projects experiences) events).spreads
    (runNav (AppState.initial projects experiences) events).spreadIndex h0 (by rw [hb]; exact h1)
  refine ⟨hb, h0, by rw [hb]; exact h1, hsome, ?_⟩
  unfold AppState.renderedKeys
  rw [Option.isSome_map']
  exact hsome

/-! ## Claims on reload -/

/-- C9 (the code at the failing input): `midTurnState` is reached from the mounted
component by a load of five projects, the jump `goToSpread(5)` and `turnPage('prev')`: six
spreads, index 5, a turn backward to index 4 in flight. A load delivering no project and no
experience now rebuilds the sequence to four spreads and sets `spreadIndex` to 0, but the
settle callback registered before the reload is still pending; when it fires it writes its
stale target: `spreadIndex` is 4, outside `[0, 3]`, and the read `spreads[spreadIndex]` of
the render is undefined. -/
theorem settle_after_rebuild_out_of_range :
    midTurnState =
        run (AppState.initial [] [])
          [Event.loadData (some (List.replicate 5 sampleProject, [])),
            Event.nav (NavEvent.goToSpread 5),
            Event.nav (NavEvent.turnPage Direction.prev)] ∧
      midTurnState.spreads.length = 6 ∧ midTurnState.spreadIndex = 5 ∧
      midTurnState.turning = some Direction.prev ∧ midTurnState.timers = [4] ∧
      (loadData (some ([], [])) midTurnState).spreads.length = 4 ∧
      (loadData (some ([], [])) midTurnState).spreadIndex = 0 ∧
      (loadData (some ([], [])) midTurnState).timers = [4] ∧
      (settle (loadData (some ([], [])) midTurnState)).spreads.length = 4 ∧
      (settle (loadData (some ([], [])) midTurnState)).spreadIndex = 4 ∧
      ¬ ((settle (loadData (some ([], [])) midTurnState)).spreadIndex ≤
        ((settle (loadData (some ([], [])) midTurnState)).spreads.length : Int) - 1) ∧
      index? (settle (loadData (some ([], [])) midTurnState)).spreads
        (settle (loadData (some ([], [])) midTurnState)).spreadIndex = none ∧
      (settle (loadData (some ([], [])) midTurnState)).renderedKeys = none := by
  decide

/-- C10 (the code at the failing input): on the mounted component (four spreads, index 0)
`turnPage('next')` is accepted, and a load delivering one project completes before the
settle callback fires. Right after the load `spreadIndex` is 0 but `turning` is still
`next` and the callback for target 1 is still pending: the navigation state is not reset.
When the callback fires it moves `spreadIndex` from 0 to 1 and only then sets `turning` to
`null`. -/
theorem loadData_in_flight_not_reset :
    (run (AppState.initial [] [])
        [Event.nav (NavEvent.turnPage Direction.next)]).turning = some Direction.next ∧
      (run (AppState.initial [] [])
        [Event.nav (NavEvent.turnPage Direction.next)]).timers = [1] ∧
      (run (AppState.initial [] [])
        [Event.nav (NavEvent.turnPage Direction.next),
          Event.loadData (some ([sampleProject], []))]).spreadIndex = 0 ∧
      (run (AppState.initial [] [])
        [Event.nav (NavEvent.turnPage Direction.next),
          Event.loadData (some ([sampleProject], []))]).turning = some Direction.next ∧
      (run (AppState.initial [] [])
        [Event.nav (NavEvent.turnPage Direction.next),
          Event.loadData (some ([sampleProject], []))]).turning ≠ none ∧
      (run (AppState.initial [] [])
        [Event.nav (NavEvent.turnPage Direction.next),
          Event.loadData (some ([sampleProject], []))]).timers = [1] ∧
      (run (AppState.initial [] [])
        [Event.nav (NavEvent.turnPage Direction.next),
          Event.loadData (some ([sampleProject], [])),
          Event.nav NavEvent.settle]).spreadIndex = 1 ∧
      (run (AppState.initial [] [])
        [Event.nav (NavEvent.turnPage Direction.next),
          Event.loadData (some ([sampleProject], [])),
          Event.nav NavEvent.settle]).turning = none := by
  decide

/-! ## Claims on chunk sizes -/

/-- For a non-empty input the ceiling quotient `k` satisfies `(k - 1) * s < n ≤ k * s`. -/
theorem ceilDiv_bounds (n s : Nat) (hs : 1 ≤ s) (hn : 0 < n) :
    1 ≤ ceilDiv n s ∧ (ceilDiv n s - 1) * s < n ∧ n ≤ ceilDiv n s * s := by
  have hlow : ceilDiv n s * s ≤ n + s - 1 := Nat.div_mul_le_self _ _
  have hupp : n + s - 1 < ceilDiv n s * s + s := by
    have := Nat.lt_div_mul_add (a := n + s - 1) (b := s) (by omega)
    unfold ceilDiv
    exact this
  have hk : 1 ≤ ceilDiv n s := by
    by_contra h0
    have : ceilDiv n s = 0 := by omega
    rw [this] at hupp
    omega
  have hsub : (ceilDiv n s - 1) * s = ceilDiv n s * s - s := by
    rw [Nat.sub_mul, Nat.one_mul]
  refine ⟨hk, ?_, ?_⟩
  · rw [hsub]
    have : s ≤ ceilDiv n s * s := Nat.le_mul_of_pos_left s (by omega)
    omega
  · omega

/-- The chunk at position `j` has `min s (n - j * s)` items. -/
theorem chunkItems_length_at {α : Type} (items : List α) (s : Nat) (hs : 1 ≤ s) :
    ∃ chunks : List (List α),
      chunkItems items s = some chunks ∧
      chunks.length = ceilDiv items.length s ∧
      ∀ j, j < chunks.length →
        (chunks[j]?).map List.length = some (min s (items.length - j * s)) := by
  obtain ⟨rest, hrun, _, hlen, hmap⟩ :=
    chunkLoop_spec items s hs (items.length + 1) 0 [] (by omega)
  have hrun2 : chunkItems items s = some rest := by simpa [chunkItems] using hrun
  simp only [Nat.sub_zero] at hlen hmap
  refine ⟨rest, hrun2, hlen, ?_⟩
  intro j hj
  rw [← List.getElem?_map, hmap, List.getElem?_map,
    List.getElem?_range (by rw [← hlen]; exact hj)]
  rfl

/-- Size of the chunk at position `j` among the `ceilDiv n s` chunks: between 1 and `s`,
and exactly `s` when the chunk is not the last one. -/
theorem chunk_length_bounds (n s j : Nat) (hs : 1 ≤ s) (hj : j < ceilDiv n s) :
    1 ≤ min s (n - j * s) ∧ min s (n - j * s) ≤ s ∧
      (j + 1 < ceilDiv n s → min s (n - j * s) = s) := by
  have hn : 0 < n := by
    by_contra h0
    have h00 : n = 0 := by omega
    rw [h00, ceilDiv_zero s hs] at hj
    omega
  obtain ⟨_, hlow, _⟩ := ceilDiv_bounds n s hs hn
  have hjs : j * s ≤ (ceilDiv n s - 1) * s := Nat.mul_le_mul_right s (by omega)
  refine ⟨by omega, by omega, ?_⟩
  intro hj1
  have hj1s : (j + 1) * s ≤ (ceilDiv n s - 1) * s := Nat.mul_le_mul_right s (by omega)
  rw [Nat.add_mul, Nat.one_mul] at hj1s
  omega

/-- C11: for every list and every size `s ≥ 1`, `chunkItems` returns chunks of which every
one but the last has exactly `s` items and the last one (when there is one) has between 1
and `s` items; so no chunk is empty and none has more than `s` items. With the caller's
page capacity 4, every chunk of `projectPairs` and `experiencePairs` has 1 to 4 cards. -/
theorem chunkItems_sizes {α : Type} (items : List α) (s : Nat) (hs : 1 ≤ s) :
    (∃ chunks : List (List α),
      chunkItems items s = some chunks ∧
      (∀ j, j + 1 < chunks.length → (chunks[j]?).map List.length = some s) ∧
      (∀ last, chunks.getLast? = some last → 1 ≤ last.length ∧ last.length ≤ s) ∧
      (∀ c ∈ chunks, c ≠ [] ∧ 1 ≤ c.length ∧ c.length ≤ s)) ∧
    (∀ state : AppState, ∀ c, c ∈ state.projectPairs ∨ c ∈ state.experiencePairs →
      1 ≤ c.length ∧ c.length ≤ 4) := by
  have general : ∀ {β : Type} (xs : List β) (size : Nat), 1 ≤ size →
      ∃ chunks : List (List β),
        chunkItems xs size = some chunks ∧
        (∀ j, j + 1 < chunks.length → (chunks[j]?).map List.length = some size) ∧
        (∀ c ∈ chunks, 1 ≤ c.length ∧ c.length ≤ size) := by
    intro β xs size hsize
    obtain ⟨chunks, hrun, hlen, hat⟩ := chunkItems_length_at xs size hsize
    refine ⟨chunks, hrun, ?_, ?_⟩
    · intro j hj
      rw [hat j (by omega)]
      congr 1
      exact (chunk_length_bounds xs.length size j hsize (by omega)).2.2 (by omega)
    · intro c hc
      obtain ⟨j, hjc⟩ := List.getElem?_of_mem hc
      have hj : j < chunks.length := by
        obtain ⟨h, _⟩ := List.getElem?_eq_some.mp hjc
        exact h
      have hcl := hat j hj
      rw [hjc] at hcl
      simp only [Option.map_some', Option.some.injEq] at hcl
      rw [hcl]
      have hb := chunk_length_bounds xs.length size j hsize (by omega)
      exact ⟨hb.1, hb.2.1⟩
  constructor
  · obtain ⟨chunks, hrun, hfull, hall⟩ := general items s hs
    refine ⟨chunks, hrun, hfull, ?_, ?_⟩
    · intro last hlast
      exact hall last (List.mem_of_getLast?_eq_some hlast)
    · intro c hc
      have hb := hall c hc
      refine ⟨?_, hb.1, hb.2⟩
      intro hnil
      rw [hnil] at hb
      simp at hb
  · intro state c hc
    rcases hc with hc | hc
    · obtain ⟨chunks, hrun, _, hall⟩ := general (state.projects.map projectCard) 4 (by decide)
      have : state.projectPairs = chunks := by
        unfold AppState.projectPairs
        rw [hrun]
        rfl
      rw [this] at hc
      exact hall c hc
    · obtain ⟨chunks, hrun, _, hall⟩ :=
        general (state.experiences.map experienceCard) 4 (by decide)
      have : state.experiencePairs = chunks := by
        unfold AppState.experiencePairs
        rw [hrun]
        rfl
      rw [this] at hc
      exact hall c hc

/-- Witness of C11: nine items at size 4 give chunks of 4, 4 and 1 items. -/
theorem chunkItems_sizes_witness :
    1 ≤ 4 ∧
      chunkItems [0, 1, 2, 3, 4, 5, 6, 7, 8] 4 = some [[0, 1, 2, 3], [4, 5, 6, 7], [8]] ∧
      ∃ chunks : List (List Nat),
        chunkItems [0, 1, 2, 3, 4, 5, 6, 7, 8] 4 = some chunks ∧
        (∀ j, j + 1 < chunks.length → (chunks[j]?).map List.length = some 4) ∧
        (∀ last, chunks.getLast? = some last → 1 ≤ last.length ∧ last.length ≤ 4) ∧
        (∀ c ∈ chunks, c ≠ [] ∧ 1 ≤ c.length ∧ c.length ≤ 4) :=
  ⟨by decide, by decide, (chunkItems_sizes [0, 1, 2, 3, 4, 5, 6, 7, 8] 4 (by decide)).1⟩

/-! ## Claims on the table of contents -/

/-- The spread at position `2 + i` is the one of project chunk `i`. -/
theorem spreads_getElem?_project {α β : Type} (projectPairs : List α)
    (experiencePairs : List β) (i : Nat) (hi : i < projectPairs.length) :
    (spreads projectPairs experiencePairs)[2 + i]? = some (projectSpread i) := by
  rw [spreads_eq, List.getElem?_append_right (by simp)]
  simp only [List.length_cons, List.length_nil, Nat.zero_add, Nat.reduceAdd,
    Nat.add_sub_cancel_left]
  rw [List.getElem?_append_left (by simpa using hi)]
  simp [hi]

/-- The spread at position `2 + p + j` is the one of experience chunk `j`. -/
theorem spreads_getElem?_experience {α β : Type} (projectPairs : List α)
    (experiencePairs : List β) (j : Nat) (hj : j < experiencePairs.length) :
    (spreads projectPairs experiencePairs)[2 + projectPairs.length + j]? =
      some (experienceSpread j) := by
  rw [spreads_eq, List.getElem?_append_right (by simp; omega)]
  simp only [List.length_cons, List.length_nil, Nat.zero_add, Nat.reduceAdd]
  rw [List.getElem?_append_right (by simp; omega)]
  rw [List.getElem?_append_left (by simp; omega)]
  have : 2 + projectPairs.length + j - 2 -
      (List.map projectSpread (List.range projectPairs.length)).length = j := by
    simp; omega
  rw [this]
  simp [hj]

/-- The two closing spreads sit at positions `2 + p + e` and `2 + p + e + 1`. -/
theorem spreads_getElem?_closing {α β : Type} (projectPairs : List α)
    (experiencePairs : List β) :
    (spreads projectPairs experiencePairs)[2 + projectPairs.length +
        experiencePairs.length]? = some { left := "graph-left", right := "graph-right" } ∧
      (spreads projectPairs experiencePairs)[2 + projectPairs.length +
        experiencePairs.length + 1]? =
          some { left := "contact-left", right := "contact-right" } := by
  constructor
  · rw [spreads_eq, List.getElem?_append_right (by simp; omega)]
    simp only [List.length_cons, List.length_nil, Nat.zero_add, Nat.reduceAdd]
    rw [List.getElem?_append_right (by simp; omega)]
    rw [List.getElem?_append_right (by simp; omega)]
    have : 2 + projectPairs.length + experiencePairs.length - 2 -
        (List.map projectSpread (List.range projectPairs.length)).length -
        (List.map experienceSpread (List.range experiencePairs.length)).length = 0 := by
      simp; omega
    rw [this]
    rfl
  · rw [spreads_eq, List.getElem?_append_right (by simp; omega)]
    simp only [List.length_cons, List.length_nil, Nat.zero_add, Nat.reduceAdd]
    rw [List.getElem?_append_right (by simp; omega)]
    rw [List.getElem?_append_right (by simp; omega)]
    have : 2 + projectPairs.length + experiencePairs.length + 1 - 2 -
        (List.map projectSpread (List.range projectPairs.length)).length -
        (List.map experienceSpread (List.range experiencePairs.length)).length = 1 := by
      simp; omega
    rw [this]
    rfl

/-- Every pair of chunk counts is the pair of chunk counts of some state of the component:
`4 * p` projects and `4 * e` experiences give `p` and `e` chunks. -/
theorem chunk_counts_realizable (p e : Nat) :
    ∃ state : AppState, state.projectPairs.length = p ∧ state.experiencePairs.length = e := by
  have count : ∀ {β : Type} (xs : List β) (n : Nat), xs.length = 4 * n →
      ((chunkItems xs 4).getD []).length = n := by
    intro β xs n hxs
    obtain ⟨chunks, hrun, hlen, _⟩ := chunkItems_length_at xs 4 (by decide)
    rw [hrun, Option.getD_some, hlen, hxs]
    unfold ceilDiv
    omega
  refine ⟨AppState.initial (List.replicate (4 * p) sampleProject)
    (List.replicate (4 * e)
      { nom := none, company := none, role := none, description := none,
        date_debut := none, date_fin := none }), ?_, ?_⟩
  · exact count _ p (by simp [AppState.initial])
  · exact count _ e (by simp [AppState.initial])

/-- C12: for chunk sequences of lengths `p` and `e`, the four jump targets of the table of
contents, `2`, `2 + p`, `2 + p + e` and `2 + p + e + 1`, are positions of the built spread
sequence; the spread at `2 + p + e` is graph, the spread at `2 + p + e + 1` is contact and
is the last one, the spread at `2` is the first project spread when `p > 0`, and the spread
at `2 + p` is the first experience spread when `e > 0`. In every state of the component,
`goToSpread` accepts each of the four targets of the rendered table of contents: it sets
`spreadIndex` to the target, and the spread read by the render is defined. -/
theorem tocTargets_valid {α β : Type} (projectChunks : List α) (experienceChunks : List β) :
    (2 < (spreads projectChunks experienceChunks).length ∧
      2 + projectChunks.length < (spreads projectChunks experienceChunks).length ∧
      2 + projectChunks.length + experienceChunks.length <
        (spreads projectChunks experienceChunks).length ∧
      2 + projectChunks.length + experienceChunks.length + 1 <
        (spreads projectChunks experienceChunks).length) ∧
    (spreads projectChunks experienceChunks)[2 + projectChunks.length +
        experienceChunks.length]? = some { left := "graph-left", right := "graph-right" } ∧
    (spreads projectChunks experienceChunks)[2 + projectChunks.length +
        experienceChunks.length + 1]? =
      some { left := "contact-left", right := "contact-right" } ∧
    (spreads projectChunks experienceChunks).getLast? =
      some { left := "contact-left", right := "contact-right" } ∧
    (0 < projectChunks.length →
      (spreads projectChunks experienceChunks)[2]? =
        some { left := "projects-left-0", right := "projects-right-0" }) ∧
    (0 < experienceChunks.length →
      (spreads projectChunks experienceChunks)[2 + projectChunks.length]? =
        some { left := "experiences-left-0", right := "experiences-right-0" }) ∧
    (∀ state : AppState, ∀ k ∈ tocTargets state,
      0 ≤ k ∧ k ≤ (state.spreads.length : Int) - 1 ∧
      goToSpread k state = { state with spreadIndex := k } ∧
      (goToSpread k state).renderedKeys.isSome = true) := by
  have hlen := spreads_length projectChunks experienceChunks
  have hclosing := spreads_getElem?_closing projectChunks experienceChunks
  refine ⟨⟨by omega, by omega, by omega, by omega⟩, hclosing.1, hclosing.2, ?_, ?_, ?_, ?_⟩
  · rw [List.getLast?_eq_getElem?, hlen]
    have : projectChunks.length + experienceChunks.length + 4 - 1 =
        2 + projectChunks.length + experienceChunks.length + 1 := by omega
    rw [this]
    exact hclosing.2
  · intro hp
    have h := spreads_getElem?_project projectChunks experienceChunks 0 hp
    rw [h]
    decide
  · intro he
    have h := spreads_getElem?_experience projectChunks experienceChunks 0 he
    rw [Nat.add_zero] at h
    rw [h]
    decide
  · intro state k hk
    have hsl := state_spreads_length state
    have accept : ∀ t : Int, 0 ≤ t → t ≤ (state.spreads.length : Int) - 1 →
        0 ≤ t ∧ t ≤ (state.spreads.length : Int) - 1 ∧
        goToSpread t state = { state with spreadIndex := t } ∧
        (goToSpread t state).renderedKeys.isSome = true := by
      intro t h0 h1
      have hgo := goToSpread_ignores_turning t state ⟨h0, h1⟩
      refine ⟨h0, h1, hgo, ?_⟩
      rw [hgo]
      unfold AppState.renderedKeys
      rw [Option.isSome_map']
      exact index?_isSome _ _ h0 h1
    simp only [tocTargets, List.mem_cons, List.mem_singleton, List.not_mem_nil, or_false]
      at hk
    rcases hk with hk | hk | hk | hk
    · subst hk
      exact accept _ (by omega) (by omega)
    · subst hk
      exact accept _ (by omega) (by omega)
    · subst hk
      exact accept _ (by omega) (by omega)
    · subst hk
      exact accept _ (by omega) (by omega)

/-- Witness of C12: with five projects and no experience (two project chunks, six spreads)
the targets are 2, 4, 4 and 5; the entry `Contact` jumps to the last spread. -/
theorem tocTargets_valid_witness :
    tocTargets (AppState.initial (List.replicate 5 sampleProject) []) = [2, 4, 4, 5] ∧
      (AppState.initial (List.replicate 5 sampleProject) []).spreads.length = 6 ∧
      (goToSpread 5 (AppState.initial (List.replicate 5 sampleProject) [])).spreadIndex = 5 ∧
      (spreads [[1, 2, 3, 4], [5]] ([] : List (List Nat)))[2]? =
        some { left := "projects-left-0", right := "projects-right-0" } ∧
      0 ≤ (5 : Int) ∧
      (5 : Int) ≤
        ((AppState.initial (List.replicate 5 sampleProject) []).spreads.length : Int) - 1 ∧
      goToSpread 5 (AppState.initial (List.replicate 5 sampleProject) []) =
        { AppState.initial (List.replicate 5 sampleProject) [] with spreadIndex := 5 } ∧
      (goToSpread 5
        (AppState.initial (List.replicate 5 sampleProject) [])).renderedKeys.isSome = true :=
  ⟨by decide, by decide, by decide,
    (tocTargets_valid [[1, 2, 3, 4], [5]] ([] : List (List Nat))).2.2.2.2.1 (by decide),
    (tocTargets_valid ([] : List Nat) ([] : List Nat)).2.2.2.2.2.2
      (AppState.initial (List.replicate 5 sampleProject) []) 5 (by decide)⟩

end BookPagination
